import Mathlib

/-!
Verification of the Hacker News discussion fetcher against its natural-language
specification.

The development shallowly embeds the Python sources:

* `parse_hn_comments.py` — comment-record extraction and the depth-stack
  tree builder (`build_nested_structure`), plus the compact renderer;
* `server.py` — the MCP tool boundary (`handle_call_tool`) and the string
  renderers (`format_comment_llm`, `format_hn_discussion`);
* `cli.py` — `get_hn_content` and the CLI `main` exit-code behavior;
* `firecrawl.py` — `get_markdown` and the error taxonomy.

HTML parsing (BeautifulSoup) and network transport are external collaborators;
a comment row of the source document is embedded as a `Row` carrying exactly
the pieces of the row that the Python code inspects, and the two network
fetches are parameters of the functions that perform them.
-/

namespace HN

/-- A flat comment record: the dictionary built for each comment row inside
`build_nested_structure` (fields `id`, `author`, `time`, `text`,
`indent_level`; `replies` is the tree part, kept separately in `CTree`). -/
structure CommentRec where
  id : String
  author : String
  time : String
  text : String
  indent_level : Nat
  deriving DecidableEq, Repr

/-- A nested comment: one comment dictionary together with its `replies`
list, as produced by `build_nested_structure`. -/
inductive CTree : Type where
  | node (rec : CommentRec) (replies : List CTree)
  deriving Repr

/-- The record stored at the root of a comment tree. -/
def CTree.topRec : CTree → CommentRec
  | .node r _ => r

/-- The `indent_level` stored at the root of a comment tree. -/
def rootDepth (t : CTree) : Nat := t.topRec.indent_level

/-- The `replies` list at the root of a comment tree. -/
def CTree.topReplies : CTree → List CTree
  | .node _ rs => rs

mutual
/-- Number of comment nodes in a tree (the node itself plus all
transitive replies). -/
def CTree.size : CTree → Nat
  | .node _ rs => 1 + forestSize rs
/-- Number of comment nodes transitively contained in a forest. -/
def forestSize : List CTree → Nat
  | [] => 0
  | t :: ts => t.size + forestSize ts
end

mutual
/-- Preorder flattening of a tree: the node's record, then the records of
its replies, depth first, in reply order. -/
def CTree.flatten : CTree → List CommentRec
  | .node r rs => r :: forestFlatten rs
/-- Preorder flattening of a forest. -/
def forestFlatten : List CTree → List CommentRec
  | [] => []
  | t :: ts => t.flatten ++ forestFlatten ts
end

/-- The `span.age` element of a comment row: an optional `title` attribute
and the element text (`age_element.get('title', age_element.text)`). -/
structure AgeElem where
  title : Option String
  text : String
  deriving DecidableEq, Repr

/-- One `tr.athing.comtr` comment row of the thread document, reduced to the
pieces the Python code reads from it:

* `id` — the row's `id` attribute (`row.get('id', '')`);
* `indentWidth` — `some w` when `td.ind` contains an `img` with a truthy
  `width` attribute parsing to `w`, `none` otherwise;
* `hnuser` — the text of the `a.hnuser` element when present;
* `age` — the `span.age` element when present;
* `commtext` — the text extracted from the `div.commtext` container when that
  container is present.  The in-container normalizations that the Python code
  performs before `get_text` (replacing truncated link texts by their full
  `href` and stripping `span.reply` elements) are HTML manipulations on the
  collaborator's document; `commtext` holds the text resulting after them. -/
structure Row where
  id : String
  indentWidth : Option Nat
  hnuser : Option String
  age : Option AgeElem
  commtext : Option String
  deriving DecidableEq, Repr

/-- Indent level of a row: `int(indent_img.get('width', 0)) // 40` when the
indent image with a width is present, else `0`. -/
def rowIndentLevel (row : Row) : Nat :=
  match row.indentWidth with
  | some w => w / 40
  | none => 0

/-- The comment dictionary `build_nested_structure` creates for a row:
author falls back to `"[deleted]"`, time to `age.get('title', age.text)` or
`"N/A"`, text to `"[deleted]"`, and depth comes from the indent marker. -/
def rowToComment (row : Row) : CommentRec :=
  { id := row.id
    author := match row.hnuser with
              | some a => a
              | none => "[deleted]"
    time := match row.age with
            | some a => match a.title with
                        | some ti => ti
                        | none => a.text
            | none => "N/A"
    text := match row.commtext with
            | some t => t
            | none => "[deleted]"
    indent_level := rowIndentLevel row }

/-- An entry of `comment_stack`: a comment dictionary whose `replies` list is
still being filled in.  (Python mutates the dictionaries in place; here the
children accumulated so far are carried in the frame and the finished tree is
assembled when the frame leaves the stack.) -/
structure Frame where
  comment : CommentRec
  replies : List CTree

/-- Close a chain of stack frames from the top down: each frame becomes a
finished tree appended to the `replies` of the frame below it.  Returns the
tree of the bottommost closed frame. -/
def closeChain : Frame → List Frame → CTree
  | f, [] => CTree.node f.comment f.replies
  | f, g :: gs => closeChain ⟨g.comment, g.replies ++ [CTree.node f.comment f.replies]⟩ gs

/-- Attach a finished tree to the builder state: to the `replies` of the top
remaining frame, or to the root list when no frame remains. -/
def attachTree (roots : List CTree) (t : CTree) : List Frame → List CTree × List Frame
  | [] => (roots ++ [t], [])
  | g :: gs => (roots, ⟨g.comment, g.replies ++ [t]⟩ :: gs)

/-- `comment_stack = comment_stack[:indent_level]`: truncate the stack to at
most `d` frames.  Frames beyond position `d` are exactly the already-complete
subtrees; truncating finalizes them into their parents (or the root list),
which in Python happened eagerly through in-place mutation. -/
def truncAux (roots : List CTree) (stack : List Frame) (d : Nat) : List CTree × List Frame :=
  if stack.length ≤ d then (roots, stack)
  else
    match stack with
    | [] => (roots, [])
    | f :: rest =>
      attachTree roots (closeChain f (rest.take (stack.length - d - 1)))
        (rest.drop (stack.length - d - 1))

/-- One iteration of the `build_nested_structure` loop (lines 185–243 of
`parse_hn_comments.py`): build the row's comment dictionary, truncate the
stack to its indent level, then either append a new root (depth 0), attach
under the stack top (depth > 0, stack non-empty), or silently drop the record
(depth > 0, stack empty).  The state is the pair of Python's `all_comments`
and `comment_stack` (kept topmost-first: the head is `comment_stack[-1]`). -/
def buildStep (st : List CTree × List Frame) (row : Row) : List CTree × List Frame :=
  let c := rowToComment row
  let p := truncAux st.1 st.2 c.indent_level
  if c.indent_level = 0 then
    (p.1, [⟨c, []⟩])
  else
    match p.2 with
    | [] => (p.1, [])
    | s => (p.1, ⟨c, []⟩ :: s)

/-- `build_nested_structure`: fold the rows through `buildStep`; closing the
frames still open at the end (truncating to 0) yields the forest that the
in-place mutation left in `all_comments`. -/
def build_nested_structure (rows : List Row) : List CTree :=
  let st := rows.foldl buildStep ([], [])
  (truncAux st.1 st.2 0).1

/-- `extract_comments` returns `build_nested_structure(comment_rows, soup)`;
its own flat first pass is discarded. -/
def extract_comments (rows : List Row) : List CTree :=
  build_nested_structure rows

/-- Story metadata as extracted by `extract_story_info`: a dictionary in
which every key may be absent. -/
structure StoryInfo where
  title : Option String
  url : Option String
  author : Option String
  points : Option String
  time : Option String
  deriving DecidableEq, Repr

/-- The dictionary returned by `parse_hn_comments`. -/
structure HNData where
  story : StoryInfo
  comments : List CTree
  total_comments : Nat

/-- `parse_hn_comments` (lines 38–67): given the already-fetched document —
its story metadata and its comment rows — return story info, the nested
comments, and `total_comments = len(comments)`. -/
def parse_hn_comments (story : StoryInfo) (rows : List Row) : HNData :=
  let comments := extract_comments rows
  { story := story, comments := comments, total_comments := comments.length }

/-- Flattening of one open frame: its record followed by its finished
children's records. -/
def frameFlat (f : Frame) : List CommentRec := f.comment :: forestFlatten f.replies

/-- Flattening of the open-ancestor stack (topmost-first): bottom frames
first, each before its descendants. -/
def stackFlat : List Frame → List CommentRec
  | [] => []
  | f :: rest => stackFlat rest ++ frameFlat f

/-- Flattening of the whole builder state: finished roots, then the open
chain. -/
def stateFlat (x : List CTree × List Frame) : List CommentRec :=
  forestFlatten x.1 ++ stackFlat x.2

/-- Number of root comments the state will contribute: finished roots plus
the one still open at the bottom of a non-empty stack. -/
def rootCount (x : List CTree × List Frame) : Nat :=
  x.1.length + (if x.2.isEmpty then 0 else 1)

mutual
/-- Depth consistency inside a tree: every reply's `indent_level` is its
parent's `indent_level + 1`, recursively. -/
def nodeOk : CTree → Bool
  | .node r rs => childrenOk r.indent_level rs
/-- The trees of the list are depth-consistent replies of a node whose
`indent_level` is `e`. -/
def childrenOk : Nat → List CTree → Bool
  | _, [] => true
  | e, t :: ts => ((rootDepth t == e + 1) && nodeOk t) && childrenOk e ts
end

/-- The §3 tree invariant for the forest: roots carry depth 0 and every
parent/child pair differs by exactly one. -/
def forestOk : List CTree → Bool
  | [] => true
  | t :: ts => ((rootDepth t == 0) && nodeOk t) && forestOk ts

mutual
/-- The stored `indent_level` of every node reachable from the root agrees
with its structural depth in the tree (`n` at the root, parent + 1 below). -/
def depthMatches : Nat → CTree → Bool
  | n, .node r rs => (r.indent_level == n) && depthMatchesF (n + 1) rs
/-- Structural-depth agreement for every tree of a forest sitting at
structural depth `n`. -/
def depthMatchesF : Nat → List CTree → Bool
  | _, [] => true
  | n, t :: ts => depthMatches n t && depthMatchesF n ts
end

/-- A frame at stack position of depth `e` (counted from the bottom) is
consistent: its record sits at depth `e` and its finished children at
`e + 1`. -/
def frameOk (e : Nat) (f : Frame) : Bool :=
  (f.comment.indent_level == e) && childrenOk e f.replies

/-- Stack consistency: the frame at distance `i` from the top of an
`n`-frame stack carries depth `n - 1 - i` (so the bottom frame is a root at
depth 0), each internally consistent. -/
def stackOk : List Frame → Bool
  | [] => true
  | f :: rest => frameOk rest.length f && stackOk rest

/-- Builder-state consistency: finished roots satisfy the forest invariant
and the open stack is a depth-indexed ancestor chain. -/
def stateOk (x : List CTree × List Frame) : Prop :=
  forestOk x.1 = true ∧ stackOk x.2 = true

/-- Well-formed depth sequences: each record's depth is at most one more
than its predecessor's (the first bounded by `b`). -/
def depthsOk : Nat → List Row → Bool
  | _, [] => true
  | b, r :: rs => decide (rowIndentLevel r ≤ b) && depthsOk (rowIndentLevel r + 1) rs

/-- All finished roots have depth 0, and the frame at the bottom of the
open stack (the root still under construction), if any, has depth 0. -/
def rootsZero (x : List CTree × List Frame) : Prop :=
  (∀ t ∈ x.1, rootDepth t = 0) ∧ ∀ f ∈ x.2.getLast?, f.comment.indent_level = 0

/-! ### Python string primitives

Lean's own `String.splitOn`, `trim`, `startsWith` and `String.all` are
compiled by well-founded recursion over byte positions and do not reduce
inside the kernel, so the Python string operations the sources use are
embedded structurally over the character list of the string. -/

/-- Scanner for `pySplitOn`: fuel-bounded left-to-right scan emitting a
piece at each non-overlapping occurrence of `sep`.  The fuel is always at
least the number of remaining characters plus one, so it never runs out. -/
def pyCharsSplitOn (sep : List Char) : Nat → List Char → List Char → List String
  | 0, l, acc => [String.mk (acc.reverse ++ l)]
  | _ + 1, [], acc => [String.mk acc.reverse]
  | fuel + 1, c :: cs, acc =>
    if sep.isPrefixOf (c :: cs) then
      String.mk acc.reverse :: pyCharsSplitOn sep fuel ((c :: cs).drop sep.length) []
    else pyCharsSplitOn sep fuel cs (c :: acc)

/-- Python's `s.split(sep)` for a non-empty separator (empty pieces are
kept; `"".split(sep) == [""]`). -/
def pySplitOn (s : String) (sep : String) : List String :=
  pyCharsSplitOn sep.data (s.data.length + 1) s.data []

/-- Python's `s.strip()`: drop leading and trailing whitespace. -/
def pyStrip (s : String) : String :=
  String.mk (((s.data.dropWhile Char.isWhitespace).reverse.dropWhile Char.isWhitespace).reverse)

/-- Python's `s.startswith(pre)`. -/
def pyStartsWith (s pre : String) : Bool :=
  pre.data.isPrefixOf s.data

/-! ### Renderers -/

/-- Python's `sep.join(xs)`. -/
def pyJoin (sep : String) : List String → String
  | [] => ""
  | [x] => x
  | x :: y :: xs => x ++ sep ++ pyJoin sep (y :: xs)

/-- Python's `"  " * indent`. -/
def prefixStr : Nat → String
  | 0 => ""
  | n + 1 => "  " ++ prefixStr n

mutual
/-- `format_comment_llm` of `server.py` (lines 21–45): one compact header
line per comment (`REPLY` at positive recursion depth, else `COMMENT`), the
body lines under the same prefix, a blank line when a depth-0 comment has
replies, then each reply's block (a multi-line string) appended as one list
entry before the final join. -/
def format_comment_llm : CTree → Nat → String
  | .node r rs, indent =>
    pyJoin "\n"
      ([prefixStr indent ++ (if indent > 0 then "REPLY" else "COMMENT") ++ " [" ++
          r.author ++ " @ " ++ r.time ++ "] ID: " ++ r.id]
        ++ (pySplitOn r.text "\n").map (fun l => prefixStr indent ++ l)
        ++ (if indent == 0 && !rs.isEmpty then [""] else [])
        ++ formatReplies rs (indent + 1))
/-- The blocks produced by the `for reply in comment['replies']` loop of
`format_comment_llm`. -/
def formatReplies : List CTree → Nat → List String
  | [], _ => []
  | t :: ts, i => format_comment_llm t i :: formatReplies ts i
end

mutual
/-- Line-level description of the compact rendering: exactly one header line
per comment, its body lines prefixed, and a single blank line directly after
a depth-0 comment's body (before its replies) exactly when it has replies. -/
def compactLines : CTree → Nat → List String
  | .node r rs, indent =>
    (prefixStr indent ++ (if indent > 0 then "REPLY" else "COMMENT") ++ " [" ++
        r.author ++ " @ " ++ r.time ++ "] ID: " ++ r.id)
      :: ((pySplitOn r.text "\n").map (fun l => prefixStr indent ++ l)
        ++ (if indent == 0 && !rs.isEmpty then [""] else [])
        ++ compactLinesF rs (indent + 1))
/-- Line-level rendering of a reply list. -/
def compactLinesF : List CTree → Nat → List String
  | [], _ => []
  | t :: ts, i => compactLines t i ++ compactLinesF ts i
end

/-- The `COMMENT #i` blocks of `format_hn_discussion` (lines 61–64 of
`server.py`): per top-level comment, a counter line, the comment's compact
block, and an empty entry. -/
def commentBlocks : List CTree → Nat → List String
  | [], _ => []
  | c :: cs, i => ("COMMENT #" ++ toString i) :: format_comment_llm c 0 :: "" :: commentBlocks cs (i + 1)

/-- `format_hn_discussion` of `server.py` (lines 48–66). -/
def format_hn_discussion (r : HNData) : String :=
  pyJoin "\n"
    (["STORY: " ++ r.story.title.getD "N/A",
      "URL: " ++ r.story.url.getD "N/A",
      "AUTHOR: " ++ r.story.author.getD "N/A" ++ " | POINTS: " ++ r.story.points.getD "N/A" ++
        " | TIME: " ++ r.story.time.getD "N/A",
      "TOTAL_COMMENTS: " ++ toString r.total_comments,
      ""]
      ++ commentBlocks r.comments 1)

/-! ### Firecrawl client (`firecrawl.py`) -/

/-- The `FirecrawlError` hierarchy: the API-key, connection and response
subclasses, each carrying its message. -/
inductive FirecrawlError where
  | apiKeyError (msg : String)
  | connectionError (msg : String)
  | responseError (msg : String)
  deriving DecidableEq, Repr

/-- `str(e)` of a `FirecrawlError`. -/
def FirecrawlError.message : FirecrawlError → String
  | .apiKeyError m => m
  | .connectionError m => m
  | .responseError m => m

/-- The `data` dictionary inside a Firecrawl response: an optional
`markdown` entry plus the remaining keys (used in the error message). -/
structure FireData where
  markdown : Option String
  otherKeys : List String
  deriving DecidableEq, Repr

/-- A decoded Firecrawl JSON response: an optional `data` dictionary. -/
structure FireResp where
  data : Option FireData
  deriving DecidableEq, Repr

/-- `get_markdown` (lines 124–148 of `firecrawl.py`): raises
`FirecrawlResponseError` when `data` or `data.markdown` is missing, else
returns the markdown.  The Python messages interpolate the repr of the
response or the key list; the repr of the whole response is abstracted away
and the key list is rendered with `toString`. -/
def get_markdown (data : FireResp) : Except FirecrawlError String :=
  match data.data with
  | none => .error (.responseError "'data' field not found in response.")
  | some d =>
    match d.markdown with
    | none => .error (.responseError
        ("'markdown' field not found in data. Available fields: " ++ toString d.otherKeys))
    | some m => .ok m

/-! ### CLI (`cli.py`) -/

/-- Python's `str.isdigit` restricted to ASCII digits: true iff the string
is non-empty and all characters are digits. -/
def pyIsDigit (s : String) : Bool :=
  !s.data.isEmpty && s.data.all Char.isDigit

/-- Item-id extraction of `get_hn_content` (lines 28–31 of `cli.py`):
split on `item?id=` and `&` when the marker occurs, else `strip`. -/
def extract_item_id_cli (hn_url : String) : String :=
  if (pySplitOn hn_url "item?id=").length > 1 then
    (pySplitOn ((pySplitOn hn_url "item?id=").getD 1 "") "&").headD ""
  else pyStrip hn_url

/-- The dictionary returned by `cli.get_hn_content`: the parsed discussion,
the scraped markdown when available, the scraped URL, and the in-band
`error` diagnostic. -/
structure CliResult where
  hn_comments : HNData
  url_content : Option String
  story_url : Option String
  error : Option String

/-- The exceptions `cli.main` can see from `get_hn_content`: the explicit
`ValueError` for a malformed id, or any exception escaping the thread fetch
(caught by the generic handler). -/
inductive CliExn where
  | valueError (msg : String)
  | unexpected (msg : String)
  deriving DecidableEq, Repr

/-- The merge part of `get_hn_content` of `cli.py` (lines 42–85), applied
once the thread data is fetched: the `scrape` parameter is the outcome of
`scrape_url` on the story URL.  Every degraded branch returns the full
`hn_data` with an `error` diagnostic; `FirecrawlError`s from the scrape or
from `get_markdown` are caught and downgraded. -/
def get_hn_content_merge (hn_data : HNData)
    (scrape : Except FirecrawlError FireResp) : CliResult :=
  let story_url := hn_data.story.url.getD ""
  if story_url = "" then
    ⟨hn_data, none, none, some "No URL found in the HN story (might be a text post)"⟩
  else if pyStartsWith story_url "https://news.ycombinator.com" then
    ⟨hn_data, none, some story_url, some "Story links to HN itself (Ask HN, Show HN, etc.)"⟩
  else
    match (do let resp ← scrape; get_markdown resp : Except FirecrawlError String) with
    | .error e => ⟨hn_data, none, some story_url,
        some ("Failed to fetch URL content: " ++ e.message)⟩
    | .ok md => ⟨hn_data, some md, some story_url, none⟩

/-- The validation and fetch part of `cli.get_hn_content`, wrapped around
`get_hn_content_merge`. -/
def get_hn_content (hn_url : String) (fetch : Except String HNData)
    (scrape : Except FirecrawlError FireResp) : Except CliExn CliResult :=
  let item_id := extract_item_id_cli hn_url
  if pyIsDigit item_id = false then
    .error (.valueError ("Invalid HN item ID: " ++ item_id))
  else
    match fetch with
    | .error m => .error (.unexpected m)
    | .ok hn_data => .ok (get_hn_content_merge hn_data scrape)

/-- `main` of `cli.py` (lines 159–197): exit code plus the result handed to
`print_result` (which always prints the full comment forest) when one was
produced.  A `ValueError` or a thread-fetch failure exits 1 before printing;
a result with an `error` diagnostic is printed and then exits 2. -/
def cli_main (hn_url : String) (fetch : Except String HNData)
    (scrape : Except FirecrawlError FireResp) : Nat × Option CliResult :=
  match get_hn_content hn_url fetch scrape with
  | .error _ => (1, none)
  | .ok result => (if result.error.isSome then 2 else 0, some result)

/-! ### MCP server (`server.py`) -/

/-- An MCP text content item (the `type` tag is always `"text"`). -/
structure TextContent where
  text : String
  deriving DecidableEq, Repr

/-- `extract_item_id` of `server.py` (lines 69–76): split on `item?id=`
and `&` when the marker occurs, else return the string unchanged. -/
def extract_item_id (hn_url : String) : String :=
  if (pySplitOn hn_url "item?id=").length > 1 then
    (pySplitOn ((pySplitOn hn_url "item?id=").getD 1 "") "&").headD ""
  else hn_url

/-- Behavior of the `scrape_url` collaborator inside `handle_call_tool`:
a decoded response, a raised `FirecrawlError`, or any other exception. -/
inductive ScrapeBehavior where
  | ok (resp : FireResp)
  | fireError (e : FirecrawlError)
  | otherError (msg : String)
  deriving DecidableEq, Repr

/-- `handle_call_tool` of `server.py` (lines 100–168).  `fetch` stands for
`parse_hn_comments` (keyed by the extracted item id; an `.error` is any
exception it raises, caught by the outer handler), `scrape` for the
`scrape_url`/`get_markdown` pipeline inside the inner `try`.  A `.error`
result models a raised `ValueError` at the argument-validation boundary. -/
def handle_call_tool (name : String) (arguments : Option (List (String × String)))
    (fetch : String → Except String HNData) (scrape : ScrapeBehavior) :
    Except String (List TextContent) :=
  if name ≠ "get_hn_content" then .error ("Unknown tool: " ++ name)
  else
    match arguments with
    | none => .error "Missing required argument: hn_url"
    | some args =>
      match args.lookup "hn_url" with
      | none => .error "Missing required argument: hn_url"
      | some hn_url =>
        match fetch (extract_item_id hn_url) with
        | .error e => .ok [⟨"Error: " ++ e⟩]
        | .ok hn_result =>
          let hn_discussion := format_hn_discussion hn_result
          let article_url := hn_result.story.url.getD ""
          let article_content :=
            if article_url ≠ "" ∧ pyStartsWith article_url "https://news.ycombinator.com" = false then
              match scrape with
              | .ok resp =>
                match get_markdown resp with
                | .ok md => md
                | .error e => "[Error fetching article content: " ++ e.message ++ "]"
              | .fireError e => "[Error fetching article content: " ++ e.message ++ "]"
              | .otherError m => "[Unexpected error fetching article: " ++ m ++ "]"
            else "[No external article URL - this is a text post or Ask HN]"
          .ok [⟨"# ARTICLE CONTENT\n\n" ++ article_content ++
            "\n\n---\n\n# HACKER NEWS DISCUSSION\n\n" ++ hn_discussion⟩]

/-! ### Concrete inputs for scenarios and counterexamples -/

/-- A fully-populated comment row with the given id and indent width. -/
def exRow (i : String) (w : Nat) : Row :=
  ⟨i, some w, some ("user" ++ i), some ⟨some ("stamp" ++ i), "ago"⟩, some ("body" ++ i)⟩

/-- A story with an external URL. -/
def exStory : StoryInfo :=
  ⟨some "A story", some "https://example.com/a", some "au", some "5 points", some "now"⟩

/-- A top-level comment with one reply, for the rendering scenario. -/
def exTree : CTree :=
  .node ⟨"1", "alice", "t1", "hello", 0⟩ [.node ⟨"2", "bob", "t2", "hi", 1⟩ []]

/-! ### Basic equations for stack truncation -/

theorem truncAux_of_le {stack : List Frame} {d : Nat} (roots : List CTree)
    (h : stack.length ≤ d) : truncAux roots stack d = (roots, stack) := by
  simp [truncAux, h]

theorem truncAux_nil (roots : List CTree) (d : Nat) :
    truncAux roots [] d = (roots, []) := by
  simp [truncAux]

theorem truncAux_single (roots : List CTree) (f : Frame) :
    truncAux roots [f] 0 = (roots ++ [CTree.node f.comment f.replies], []) := rfl

theorem truncAux_step (roots : List CTree) (f g : Frame) (gs : List Frame) (d : Nat)
    (h : d < gs.length + 2) :
    truncAux roots (f :: g :: gs) d =
      truncAux roots (⟨g.comment, g.replies ++ [CTree.node f.comment f.replies]⟩ :: gs) d := by
  by_cases h2 : gs.length + 1 ≤ d
  · have e0 : (f :: g :: gs).length - d - 1 = 0 := by simp; omega
    have h3 : ¬ (f :: g :: gs).length ≤ d := by simp; omega
    have h4 : (⟨g.comment, g.replies ++ [CTree.node f.comment f.replies]⟩ :: gs :
        List Frame).length ≤ d := by simp; omega
    rw [truncAux_of_le roots h4]
    simp only [truncAux, if_neg h3, e0, List.take_zero, List.drop_zero, closeChain, attachTree]
  · obtain ⟨k, hk⟩ : ∃ k, gs.length - d = k := ⟨gs.length - d, rfl⟩
    have e1 : (f :: g :: gs).length - d - 1 = k + 1 := by simp; omega
    have e2 : (⟨g.comment, g.replies ++ [CTree.node f.comment f.replies]⟩ :: gs :
        List Frame).length - d - 1 = k := by simp; omega
    have h3 : ¬ (f :: g :: gs).length ≤ d := by simp; omega
    have h4 : ¬ (⟨g.comment, g.replies ++ [CTree.node f.comment f.replies]⟩ :: gs :
        List Frame).length ≤ d := by simp; omega
    simp only [truncAux, if_neg h3, if_neg h4, e1, e2, List.take_succ_cons,
      List.drop_succ_cons, closeChain]

/-- Truncation generic preservation principle: any property stable under
closing the top frame into its parent, and under closing a bottom frame into
the root list, is preserved by `truncAux`. -/
theorem trunc_rec (P : List CTree × List Frame → Prop)
    (hstep : ∀ (roots : List CTree) (f g : Frame) (gs : List Frame),
      P (roots, f :: g :: gs) →
      P (roots, ⟨g.comment, g.replies ++ [CTree.node f.comment f.replies]⟩ :: gs))
    (hbot : ∀ (roots : List CTree) (f : Frame),
      P (roots, [f]) → P (roots ++ [CTree.node f.comment f.replies], [])) :
    ∀ (stack : List Frame) (roots : List CTree) (d : Nat),
      P (roots, stack) → P (truncAux roots stack d) := by
  have key : ∀ (n : Nat) (stack : List Frame), stack.length = n →
      ∀ (roots : List CTree) (d : Nat), P (roots, stack) → P (truncAux roots stack d) := by
    intro n
    induction n using Nat.strong_induction_on with
    | _ n ih =>
      intro stack hlen roots d hP
      by_cases hle : stack.length ≤ d
      · rw [truncAux_of_le roots hle]; exact hP
      · match stack, hlen with
        | [], hlen => simp at hle
        | [f], hlen =>
          have hd : d = 0 := by simp at hle; omega
          subst hd
          rw [truncAux_single]
          exact hbot roots f hP
        | f :: g :: gs, hlen =>
          have hlen2 : gs.length + 2 = n := by simpa using hlen
          rw [truncAux_step roots f g gs d (by simp at hle; omega)]
          exact ih (gs.length + 1) (by omega)
            (⟨g.comment, g.replies ++ [CTree.node f.comment f.replies]⟩ :: gs) (by simp)
            roots d (hstep roots f g gs hP)
  exact fun stack roots d => key stack.length stack rfl roots d

theorem truncAux_stack_length :
    ∀ (stack : List Frame) (roots : List CTree) (d : Nat),
      (truncAux roots stack d).2.length = min stack.length d := by
  have key : ∀ (n : Nat) (stack : List Frame), stack.length = n →
      ∀ (roots : List CTree) (d : Nat),
      (truncAux roots stack d).2.length = min stack.length d := by
    intro n
    induction n using Nat.strong_induction_on with
    | _ n ih =>
      intro stack hlen roots d
      by_cases hle : stack.length ≤ d
      · rw [truncAux_of_le roots hle]; simp; omega
      · match stack, hlen with
        | [], hlen => simp at hle
        | [f], hlen =>
          have hd : d = 0 := by simp at hle; omega
          subst hd
          rw [truncAux_single]
          simp
        | f :: g :: gs, hlen =>
          have hlen2 : gs.length + 2 = n := by simpa using hlen
          rw [truncAux_step roots f g gs d (by simp at hle; omega)]
          rw [ih (gs.length + 1) (by omega)
            (⟨g.comment, g.replies ++ [CTree.node f.comment f.replies]⟩ :: gs) (by simp)
            roots d]
          simp at hle ⊢
          omega
  exact fun stack roots d => key stack.length stack rfl roots d

/-- A fully truncated stack is empty. -/
theorem truncAux_zero_stack (stack : List Frame) (roots : List CTree) :
    (truncAux roots stack 0).2 = [] := by
  have h := truncAux_stack_length stack roots 0
  simpa using h

/-! ### Preorder flattening of the builder state -/

theorem forestFlatten_append (a b : List CTree) :
    forestFlatten (a ++ b) = forestFlatten a ++ forestFlatten b := by
  induction a with
  | nil => simp [forestFlatten]
  | cons t ts ih => simp [forestFlatten, ih]

theorem stateFlat_trunc (stack : List Frame) (roots : List CTree) (d : Nat) :
    stateFlat (truncAux roots stack d) = stateFlat (roots, stack) := by
  refine trunc_rec (fun x => stateFlat x = stateFlat (roots, stack)) ?_ ?_ stack roots d rfl
  · intro roots' f g gs hP
    rw [← hP]
    simp [stateFlat, stackFlat, frameFlat, forestFlatten_append, forestFlatten,
      CTree.flatten]
  · intro roots' f hP
    rw [← hP]
    simp [stateFlat, stackFlat, frameFlat, forestFlatten_append, forestFlatten,
      CTree.flatten]

theorem stateFlat_buildStep (st : List CTree × List Frame) (row : Row) :
    stateFlat (buildStep st row) = stateFlat st ++ [rowToComment row] ∨
    stateFlat (buildStep st row) = stateFlat st := by
  rcases hp : truncAux st.1 st.2 (rowToComment row).indent_level with ⟨r1, s1⟩
  have hflat : forestFlatten r1 ++ stackFlat s1 = stateFlat st := by
    have h := stateFlat_trunc st.2 st.1 (rowToComment row).indent_level
    rw [hp] at h
    simpa [stateFlat] using h
  by_cases h0 : (rowToComment row).indent_level = 0
  · left
    have hz : s1 = [] := by
      have h := truncAux_zero_stack st.2 st.1
      rw [← h0, hp] at h
      exact h
    subst hz
    simp only [stackFlat, List.append_nil] at hflat
    simp [buildStep, hp, if_pos h0, stateFlat, stackFlat, frameFlat, forestFlatten, hflat]
  · rcases s1 with _ | ⟨f1, s1'⟩
    · right
      simp only [stackFlat, List.append_nil] at hflat
      simp [buildStep, hp, if_neg h0, stateFlat, stackFlat, hflat]
    · left
      rw [← hflat]
      simp [buildStep, hp, if_neg h0, stateFlat, stackFlat, frameFlat, forestFlatten]

theorem stateFlat_foldl (rows : List Row) :
    ∀ st : List CTree × List Frame,
      ∃ l, l.Sublist (rows.map rowToComment) ∧
        stateFlat (rows.foldl buildStep st) = stateFlat st ++ l := by
  induction rows with
  | nil => exact fun st => ⟨[], by simp, by simp⟩
  | cons r rs ih =>
    intro st
    obtain ⟨l, hsub, hflat⟩ := ih (buildStep st r)
    rcases stateFlat_buildStep st r with h | h
    · refine ⟨rowToComment r :: l, ?_, ?_⟩
      · simpa using List.Sublist.cons₂ (rowToComment r) hsub
      · simp [hflat, h]
    · refine ⟨l, ?_, ?_⟩
      · simpa using List.Sublist.cons (rowToComment r) hsub
      · simp [hflat, h]

/-- The forest built from a row sequence flattens (in preorder) to a
selection, in order, of the records extracted from the rows. -/
theorem build_flatten_sublist (rows : List Row) :
    (forestFlatten (build_nested_structure rows)).Sublist (rows.map rowToComment) := by
  obtain ⟨l, hsub, hl⟩ := stateFlat_foldl rows ([], [])
  have h2 : forestFlatten (build_nested_structure rows) = l := by
    unfold build_nested_structure
    rcases hq : truncAux (rows.foldl buildStep ([], [])).1 (rows.foldl buildStep ([], [])).2 0
      with ⟨r1, s1⟩
    have hz := truncAux_zero_stack (rows.foldl buildStep ([], [])).2
      (rows.foldl buildStep ([], [])).1
    have hfl := stateFlat_trunc (rows.foldl buildStep ([], [])).2
      (rows.foldl buildStep ([], [])).1 0
    rw [hq] at hz hfl
    subst hz
    have hstate : stateFlat (rows.foldl buildStep ([], [])) = l := by
      rw [hl]; simp [stateFlat, stackFlat, forestFlatten]
    simp only [hq]
    have hr1 : stateFlat (r1, []) = l := hfl.trans hstate
    simpa [stateFlat, stackFlat] using hr1
  rw [h2]
  exact hsub

/-! ### Root counting -/

theorem rootCount_trunc (stack : List Frame) (roots : List CTree) (d : Nat) :
    rootCount (truncAux roots stack d) = rootCount (roots, stack) := by
  refine trunc_rec (fun x => rootCount x = rootCount (roots, stack)) ?_ ?_ stack roots d rfl
  · intro roots' f g gs hP
    rw [← hP]; simp [rootCount]
  · intro roots' f hP
    rw [← hP]; simp [rootCount]

theorem rootCount_buildStep (st : List CTree × List Frame) (row : Row) :
    rootCount (buildStep st row) =
      rootCount st + (if rowIndentLevel row = 0 then 1 else 0) := by
  have hd : (rowToComment row).indent_level = rowIndentLevel row := rfl
  rcases hp : truncAux st.1 st.2 (rowToComment row).indent_level with ⟨r1, s1⟩
  have hrc : rootCount (r1, s1) = rootCount st := by
    have h := rootCount_trunc st.2 st.1 (rowToComment row).indent_level
    rw [hp] at h
    simpa [rootCount] using h
  by_cases h0 : (rowToComment row).indent_level = 0
  · have h0' : rowIndentLevel row = 0 := hd ▸ h0
    have hz : s1 = [] := by
      have h := truncAux_zero_stack st.2 st.1
      rw [← h0, hp] at h
      exact h
    subst hz
    simp only [buildStep, hp, if_pos h0]
    rw [← hrc]
    simp [rootCount, h0']
  · have h0' : ¬ rowIndentLevel row = 0 := fun h => h0 (hd.trans h)
    rcases s1 with _ | ⟨f1, s1'⟩
    · simp only [buildStep, hp, if_neg h0]
      rw [← hrc]
      simp [rootCount, h0']
    · simp only [buildStep, hp, if_neg h0]
      rw [← hrc]
      simp [rootCount, h0']

theorem rootCount_foldl (rows : List Row) :
    ∀ st : List CTree × List Frame,
      rootCount (rows.foldl buildStep st) =
        rootCount st + rows.countP (fun r => rowIndentLevel r == 0) := by
  induction rows with
  | nil => simp
  | cons r rs ih =>
    intro st
    rw [List.foldl_cons, ih (buildStep st r), rootCount_buildStep st r, List.countP_cons]
    by_cases h0 : rowIndentLevel r = 0
    · simp [h0]; omega
    · simp [h0]

/-- The length of the built forest equals the number of depth-0 rows. -/
theorem build_length_eq_countP (rows : List Row) :
    (build_nested_structure rows).length = rows.countP (fun r => rowIndentLevel r == 0) := by
  unfold build_nested_structure
  rcases hq : truncAux (rows.foldl buildStep ([], [])).1 (rows.foldl buildStep ([], [])).2 0
    with ⟨r1, s1⟩
  have hz := truncAux_zero_stack (rows.foldl buildStep ([], [])).2
    (rows.foldl buildStep ([], [])).1
  have hrc := rootCount_trunc (rows.foldl buildStep ([], [])).2
    (rows.foldl buildStep ([], [])).1 0
  rw [hq] at hz hrc
  subst hz
  have hfold := rootCount_foldl rows ([], [])
  simp only [hq]
  simp only [rootCount, List.isEmpty_nil, List.length_nil] at hrc hfold ⊢
  simp at hrc hfold ⊢
  omega

/-! ### Dropped records -/

/-- When a positive-depth record meets an empty (truncated) ancestor stack,
`buildStep` leaves the state untouched. -/
theorem buildStep_drop (st : List CTree × List Frame) (row : Row)
    (hd : rowIndentLevel row ≠ 0)
    (hempty : (truncAux st.1 st.2 (rowIndentLevel row)).2 = []) :
    buildStep st row = st := by
  have hlen := truncAux_stack_length st.2 st.1 (rowIndentLevel row)
  rw [hempty] at hlen
  simp only [List.length_nil] at hlen
  have hlen2 := hlen.symm
  rw [Nat.min_eq_zero_iff] at hlen2
  have hst : st.2 = [] := by
    rcases hlen2 with h | h
    · exact List.length_eq_zero.mp h
    · exact absurd h hd
  have hd2 : (rowToComment row).indent_level = rowIndentLevel row := rfl
  have hnil : truncAux st.1 st.2 (rowIndentLevel row) = (st.1, []) := by
    rw [hst, truncAux_nil]
  simp [buildStep, hd2, hnil, hd]
  rw [← hst]

/-! ### Depth invariants of the built forest -/

mutual
theorem nodeOk_depthMatches : ∀ t : CTree, nodeOk t = true → depthMatches (rootDepth t) t = true
  | .node r rs, h => by
    have h' : childrenOk r.indent_level rs = true := by simpa [nodeOk] using h
    simp only [depthMatches, rootDepth, CTree.topRec, beq_self_eq_true, Bool.true_and]
    exact childrenOk_depthMatchesF r.indent_level rs h'
theorem childrenOk_depthMatchesF :
    ∀ (e : Nat) (ts : List CTree), childrenOk e ts = true → depthMatchesF (e + 1) ts = true
  | _, [], _ => rfl
  | e, t :: ts, h => by
    simp only [childrenOk, Bool.and_eq_true, beq_iff_eq] at h
    obtain ⟨⟨hdep, hok⟩, hrest⟩ := h
    simp only [depthMatchesF, Bool.and_eq_true]
    refine ⟨?_, childrenOk_depthMatchesF e ts hrest⟩
    have := nodeOk_depthMatches t hok
    rwa [hdep] at this
end

theorem childrenOk_append (e : Nat) (a b : List CTree) :
    childrenOk e (a ++ b) = (childrenOk e a && childrenOk e b) := by
  induction a with
  | nil => simp [childrenOk]
  | cons t ts ih => simp [childrenOk, ih, Bool.and_assoc]

theorem forestOk_append (a b : List CTree) :
    forestOk (a ++ b) = (forestOk a && forestOk b) := by
  induction a with
  | nil => simp [forestOk]
  | cons t ts ih => simp [forestOk, ih, Bool.and_assoc]

theorem stateOk_trunc (stack : List Frame) (roots : List CTree) (d : Nat)
    (h : stateOk (roots, stack)) : stateOk (truncAux roots stack d) := by
  refine trunc_rec stateOk ?_ ?_ stack roots d h
  · rintro roots' f g gs ⟨hforest, hstack⟩
    simp only [stackOk, frameOk, List.length_cons, Bool.and_eq_true, beq_iff_eq] at hstack
    obtain ⟨⟨hfd, hfc⟩, ⟨hgd, hgc⟩, hrest⟩ := hstack
    refine ⟨hforest, ?_⟩
    simp only [stackOk, frameOk, Bool.and_eq_true, beq_iff_eq]
    refine ⟨⟨hgd, ?_⟩, hrest⟩
    rw [childrenOk_append]
    simp only [Bool.and_eq_true]
    refine ⟨hgc, ?_⟩
    simp only [childrenOk, rootDepth, CTree.topRec, Bool.and_eq_true, beq_iff_eq]
    exact ⟨⟨hfd, by simpa [nodeOk, hfd] using hfc⟩, trivial⟩
  · rintro roots' f ⟨hforest, hstack⟩
    simp only [stackOk, frameOk, List.length_nil, Bool.and_eq_true, beq_iff_eq] at hstack
    obtain ⟨⟨hfd, hfc⟩, -⟩ := hstack
    refine ⟨?_, rfl⟩
    rw [forestOk_append]
    simp only [Bool.and_eq_true]
    refine ⟨hforest, ?_⟩
    simp only [forestOk, rootDepth, CTree.topRec, Bool.and_eq_true, beq_iff_eq]
    exact ⟨⟨hfd, by simpa [nodeOk, hfd] using hfc⟩, trivial⟩

theorem buildStep_invariant (st : List CTree × List Frame) (row : Row) (b : Nat)
    (hok : stateOk st) (hlen : st.2 = [] ∨ st.2.length = b)
    (hb : rowIndentLevel row ≤ b) :
    stateOk (buildStep st row) ∧
      ((buildStep st row).2 = [] ∨ (buildStep st row).2.length = rowIndentLevel row + 1) := by
  have hd : (rowToComment row).indent_level = rowIndentLevel row := rfl
  rcases hp : truncAux st.1 st.2 (rowToComment row).indent_level with ⟨r1, s1⟩
  have hpok : stateOk (r1, s1) := by
    have h := stateOk_trunc st.2 st.1 (rowToComment row).indent_level (by
      obtain ⟨h1, h2⟩ := hok
      exact ⟨h1, h2⟩)
    rwa [hp] at h
  have hp2 : truncAux st.1 st.2 (rowIndentLevel row) = (r1, s1) := hd ▸ hp
  have hplen : s1.length = min st.2.length (rowIndentLevel row) := by
    have h := truncAux_stack_length st.2 st.1 (rowIndentLevel row)
    rw [hp2] at h
    exact h
  by_cases h0 : rowIndentLevel row = 0
  · constructor
    · refine ⟨?_, ?_⟩
      · simp only [buildStep, hd, hp2, if_pos h0]
        exact hpok.1
      · simp only [buildStep, hd, hp2, if_pos h0]
        simp [stackOk, frameOk, childrenOk, rowToComment, h0]
    · right
      simp only [buildStep, hd, hp2, if_pos h0]
      simp [h0]
  · rcases s1 with _ | ⟨f1, s1'⟩
    · have hst2 : st.2 = [] := by
        have h := hplen.symm
        simp only [List.length_nil] at h
        rw [Nat.min_eq_zero_iff] at h
        rcases h with h | h
        · exact List.length_eq_zero.mp h
        · exact absurd h h0
      have hres : buildStep st row = st := by
        apply buildStep_drop st row h0
        rw [hp2]
      rw [hres]
      exact ⟨hok, Or.inl hst2⟩
    · have hlen1 : (f1 :: s1').length = rowIndentLevel row := by
        rcases hlen with h | h
        · rw [h] at hplen; simp at hplen
        · rw [h] at hplen
          rw [hplen]
          omega
      constructor
      · refine ⟨?_, ?_⟩
        · simp only [buildStep, hd, hp2, if_neg h0]
          exact hpok.1
        · simp only [buildStep, hd, hp2, if_neg h0]
          have h1 : frameOk (f1 :: s1').length ⟨rowToComment row, []⟩ = true := by
            simp [frameOk, childrenOk, hlen1]
            rfl
          rw [stackOk, Bool.and_eq_true]
          exact ⟨h1, hpok.2⟩
      · right
        simp only [buildStep, hd, hp2, if_neg h0]
        simp [hlen1]

theorem build_invariant (rows : List Row) :
    ∀ (st : List CTree × List Frame) (b : Nat),
      stateOk st → (st.2 = [] ∨ st.2.length = b) → depthsOk b rows = true →
      stateOk (rows.foldl buildStep st) := by
  induction rows with
  | nil => exact fun st b hok _ _ => hok
  | cons r rs ih =>
    intro st b hok hlen hd
    simp only [depthsOk, Bool.and_eq_true, decide_eq_true_eq] at hd
    obtain ⟨hb, hrest⟩ := hd
    obtain ⟨hok', hlen'⟩ := buildStep_invariant st r b hok hlen hb
    exact ih (buildStep st r) (rowIndentLevel r + 1) hok' hlen' hrest

/-- Well-formed depth sequences build forests satisfying the §3 tree
invariant. -/
theorem build_forestOk (b : Nat) (rows : List Row) (h : depthsOk b rows = true) :
    forestOk (build_nested_structure rows) = true := by
  have hok := build_invariant rows ([], []) b ⟨rfl, rfl⟩ (Or.inl rfl) h
  have hfin := stateOk_trunc (rows.foldl buildStep ([], [])).2
    (rows.foldl buildStep ([], [])).1 0 (by
      obtain ⟨h1, h2⟩ := hok
      exact ⟨h1, h2⟩)
  unfold build_nested_structure
  exact hfin.1

/-- A forest satisfying the tree invariant has every reachable node's stored
depth equal to its structural depth. -/
theorem forestOk_depthMatchesF (ts : List CTree) (h : forestOk ts = true) :
    depthMatchesF 0 ts = true := by
  induction ts with
  | nil => rfl
  | cons t ts ih =>
    simp only [forestOk, Bool.and_eq_true, beq_iff_eq] at h
    obtain ⟨⟨hd0, hok⟩, hrest⟩ := h
    simp only [depthMatchesF, Bool.and_eq_true]
    refine ⟨?_, ih hrest⟩
    have hm := nodeOk_depthMatches t hok
    rwa [hd0] at hm

/-! ### Roots always sit at depth 0 -/

theorem rootsZero_trunc (stack : List Frame) (roots : List CTree) (d : Nat)
    (h : rootsZero (roots, stack)) : rootsZero (truncAux roots stack d) := by
  refine trunc_rec rootsZero ?_ ?_ stack roots d h
  · rintro roots' f g gs ⟨h1, h2⟩
    refine ⟨h1, ?_⟩
    intro f' hf'
    rcases gs with _ | ⟨x, xs⟩
    · simp at hf'
      subst hf'
      exact h2 g (by simp [List.getLast?_cons_cons])
    · apply h2
      simpa [List.getLast?_cons_cons] using hf'
  · rintro roots' f ⟨h1, h2⟩
    constructor
    · intro t ht
      rcases List.mem_append.mp ht with hm | hm
      · exact h1 t hm
      · simp at hm
        subst hm
        have hz := h2 f (by simp)
        simpa [rootDepth, CTree.topRec] using hz
    · intro f' hf'
      simp at hf'

theorem rootsZero_buildStep (st : List CTree × List Frame) (row : Row)
    (h : rootsZero st) : rootsZero (buildStep st row) := by
  rcases hp : truncAux st.1 st.2 (rowToComment row).indent_level with ⟨r1, s1⟩
  have htr : rootsZero (r1, s1) := by
    have hz := rootsZero_trunc st.2 st.1 (rowToComment row).indent_level ⟨h.1, h.2⟩
    rwa [hp] at hz
  by_cases h0 : (rowToComment row).indent_level = 0
  · constructor
    · simp only [buildStep, hp, if_pos h0]
      exact htr.1
    · simp only [buildStep, hp, if_pos h0]
      intro f' hf'
      simp at hf'
      subst hf'
      exact h0
  · rcases s1 with _ | ⟨f1, s1'⟩
    · refine ⟨?_, ?_⟩
      · simp only [buildStep, hp, if_neg h0]
        exact htr.1
      · simp only [buildStep, hp, if_neg h0]
        intro f' hf'
        simp at hf'
    · refine ⟨?_, ?_⟩
      · simp only [buildStep, hp, if_neg h0]
        exact htr.1
      · simp only [buildStep, hp, if_neg h0]
        intro f' hf'
        apply htr.2
        simpa [List.getLast?_cons_cons] using hf'

theorem rootsZero_foldl (rows : List Row) :
    ∀ st : List CTree × List Frame, rootsZero st → rootsZero (rows.foldl buildStep st) := by
  induction rows with
  | nil => exact fun st h => h
  | cons r rs ih => exact fun st h => ih (buildStep st r) (rootsZero_buildStep st r h)

theorem build_roots_zero (rows : List Row) :
    ∀ t ∈ build_nested_structure rows, rootDepth t = 0 := by
  have h0 : rootsZero ([], []) := ⟨by simp, by simp⟩
  have h1 := rootsZero_foldl rows ([], []) h0
  have h2 := rootsZero_trunc (rows.foldl buildStep ([], [])).2
    (rows.foldl buildStep ([], [])).1 0 ⟨h1.1, h1.2⟩
  unfold build_nested_structure
  exact h2.1

/-! ### Flatten of the finished forest, and attached roots -/

theorem build_flatten_eq_stateFlat (rows : List Row) :
    forestFlatten (build_nested_structure rows) =
      stateFlat (rows.foldl buildStep ([], [])) := by
  unfold build_nested_structure
  rcases hq : truncAux (rows.foldl buildStep ([], [])).1 (rows.foldl buildStep ([], [])).2 0
    with ⟨r1, s1⟩
  have hz := truncAux_zero_stack (rows.foldl buildStep ([], [])).2
    (rows.foldl buildStep ([], [])).1
  have hfl := stateFlat_trunc (rows.foldl buildStep ([], [])).2
    (rows.foldl buildStep ([], [])).1 0
  rw [hq] at hz hfl
  subst hz
  simp only [hq]
  simpa [stateFlat, stackFlat] using hfl

theorem stateFlat_buildStep_root (st : List CTree × List Frame) (row : Row)
    (h0 : rowIndentLevel row = 0) :
    stateFlat (buildStep st row) = stateFlat st ++ [rowToComment row] := by
  rcases hp : truncAux st.1 st.2 (rowToComment row).indent_level with ⟨r1, s1⟩
  have hflat : forestFlatten r1 ++ stackFlat s1 = stateFlat st := by
    have h := stateFlat_trunc st.2 st.1 (rowToComment row).indent_level
    rw [hp] at h
    simpa [stateFlat] using h
  have h0' : (rowToComment row).indent_level = 0 := h0
  have hz : s1 = [] := by
    have h := truncAux_zero_stack st.2 st.1
    rw [← h0', hp] at h
    exact h
  subst hz
  simp only [stackFlat, List.append_nil] at hflat
  simp [buildStep, hp, if_pos h0', stateFlat, stackFlat, frameFlat, forestFlatten, hflat]

/-- A record the builder attaches — depth 0, or a non-empty truncated
ancestor stack at its depth — ends up appended to the state's preorder
flattening. -/
theorem stateFlat_buildStep_kept (st : List CTree × List Frame) (row : Row)
    (h : rowIndentLevel row = 0 ∨
      (truncAux st.1 st.2 (rowIndentLevel row)).2 ≠ []) :
    stateFlat (buildStep st row) = stateFlat st ++ [rowToComment row] := by
  by_cases h0 : rowIndentLevel row = 0
  · exact stateFlat_buildStep_root st row h0
  · have hne : (truncAux st.1 st.2 (rowIndentLevel row)).2 ≠ [] := h.resolve_left h0
    have hd : (rowToComment row).indent_level = rowIndentLevel row := rfl
    rcases hp : truncAux st.1 st.2 (rowToComment row).indent_level with ⟨r1, s1⟩
    have hflat : forestFlatten r1 ++ stackFlat s1 = stateFlat st := by
      have hh := stateFlat_trunc st.2 st.1 (rowToComment row).indent_level
      rw [hp] at hh
      simpa [stateFlat] using hh
    have hp2 : truncAux st.1 st.2 (rowIndentLevel row) = (r1, s1) := hd ▸ hp
    rcases s1 with _ | ⟨f1, s1'⟩
    · rw [hp2] at hne
      exact absurd rfl hne
    · have h0' : ¬ (rowToComment row).indent_level = 0 := fun hh => h0 (hd.symm.trans hh)
      rw [← hflat]
      simp [buildStep, hp, if_neg h0', stateFlat, stackFlat, frameFlat, forestFlatten]

/-! ### Joining line blocks -/

theorem pyJoin_cons_cons (s x y : String) (xs : List String) :
    pyJoin s (x :: y :: xs) = x ++ s ++ pyJoin s (y :: xs) := rfl

theorem pyJoin_append (s : String) (xs ys : List String) (hx : xs ≠ []) (hy : ys ≠ []) :
    pyJoin s (xs ++ ys) = pyJoin s xs ++ s ++ pyJoin s ys := by
  induction xs with
  | nil => exact absurd rfl hx
  | cons x xs ih =>
    rcases xs with _ | ⟨x2, xs2⟩
    · rcases ys with _ | ⟨y, ys⟩
      · exact absurd rfl hy
      · rfl
    · have h := ih (by simp)
      simp only [List.cons_append] at h ⊢
      rw [pyJoin_cons_cons, pyJoin_cons_cons, h]
      simp [String.append_assoc]

theorem pyJoin_block (s : String) (a b c : List String) (hb : b ≠ []) :
    pyJoin s (a ++ [pyJoin s b] ++ c) = pyJoin s (a ++ (b ++ c)) := by
  rcases a with _ | ⟨a0, as⟩
  · rcases c with _ | ⟨c0, cs⟩
    · simp [pyJoin]
    · simp only [List.nil_append]
      rw [show ([pyJoin s b] ++ c0 :: cs : List String) = pyJoin s b :: c0 :: cs from rfl]
      rw [pyJoin_cons_cons]
      rw [pyJoin_append s b (c0 :: cs) hb (by simp)]
  · rcases c with _ | ⟨c0, cs⟩
    · simp only [List.append_nil]
      rw [pyJoin_append s (a0 :: as) [pyJoin s b] (by simp) (by simp),
        pyJoin_append s (a0 :: as) b (by simp) hb]
      rfl
    · rw [List.append_assoc, pyJoin_append s (a0 :: as) ([pyJoin s b] ++ c0 :: cs) (by simp)
        (by simp), pyJoin_append s (a0 :: as) (b ++ c0 :: cs) (by simp) (by simp [hb]),
        show ([pyJoin s b] ++ c0 :: cs : List String) = pyJoin s b :: c0 :: cs from rfl,
        pyJoin_cons_cons, pyJoin_append s b (c0 :: cs) hb (by simp)]

theorem compactLines_ne_nil (t : CTree) (i : Nat) : compactLines t i ≠ [] := by
  cases t
  simp [compactLines]

mutual
theorem format_eq_compact : ∀ (t : CTree) (i : Nat),
    format_comment_llm t i = pyJoin "\n" (compactLines t i)
  | .node r rs, i => by
    simp only [format_comment_llm, compactLines]
    have h := formatReplies_eq rs (i + 1)
      ((prefixStr i ++ (if i > 0 then "REPLY" else "COMMENT") ++ " [" ++
          r.author ++ " @ " ++ r.time ++ "] ID: " ++ r.id)
        :: ((pySplitOn r.text "\n").map (fun l => prefixStr i ++ l)
          ++ (if i == 0 && !rs.isEmpty then [""] else []))) (by simp)
    simpa [List.cons_append, List.append_assoc] using h
theorem formatReplies_eq : ∀ (rs : List CTree) (i : Nat) (front : List String),
    front ≠ [] →
    pyJoin "\n" (front ++ formatReplies rs i) = pyJoin "\n" (front ++ compactLinesF rs i)
  | [], _, _, _ => rfl
  | t :: ts, i, front, hf => by
    have h1 : format_comment_llm t i = pyJoin "\n" (compactLines t i) := format_eq_compact t i
    have h2 := formatReplies_eq ts i (front ++ [format_comment_llm t i]) (by simp)
    calc pyJoin "\n" (front ++ formatReplies (t :: ts) i)
        = pyJoin "\n" ((front ++ [format_comment_llm t i]) ++ formatReplies ts i) := by
          simp [formatReplies]
      _ = pyJoin "\n" ((front ++ [format_comment_llm t i]) ++ compactLinesF ts i) := h2
      _ = pyJoin "\n" (front ++ [pyJoin "\n" (compactLines t i)] ++ compactLinesF ts i) := by
          rw [h1]
      _ = pyJoin "\n" (front ++ (compactLines t i ++ compactLinesF ts i)) :=
          pyJoin_block "\n" front (compactLines t i) (compactLinesF ts i)
            (compactLines_ne_nil t i)
      _ = pyJoin "\n" (front ++ compactLinesF (t :: ts) i) := by simp [compactLinesF]
end

/-! ## Claims -/

/-- C1 (counterexample): on the two-record thread `[depth 0, depth 1]` the
result's `total_comments` is 1 (the code computes `len(comments)`, the
number of top-level comments), while the comment forest transitively
contains 2 nodes — so `total_comments` is not the count of all nodes
transitively contained in the forest. -/
theorem C1_total_comments_counterexample :
    (parse_hn_comments exStory [exRow "1" 0, exRow "2" 40]).total_comments ≠
      forestSize (parse_hn_comments exStory [exRow "1" 0, exRow "2" 40]).comments := by
  decide

/-- C1 (amended): for every parsed discussion, `total_comments` equals the
number of top-level (root) comments of the forest — equivalently, the number
of extracted records with depth 0 — not the transitive node count. -/
theorem C1_total_comments_counts_roots (story : StoryInfo) (rows : List Row) :
    (parse_hn_comments story rows).total_comments =
      rows.countP (fun r => rowIndentLevel r == 0) :=
  build_length_eq_countP rows

/-- C2 (counterexample): on the thread `[depth 0, depth 2]` the builder
attaches the depth-2 record directly under the depth-0 root, so the built
forest violates the invariant that every non-root node's depth equals its
parent's depth + 1. -/
theorem C2_tree_invariant_counterexample :
    forestOk (build_nested_structure [exRow "1" 0, exRow "2" 80]) = false := by
  decide

/-- C2 (amended): every root of the built forest has depth 0, for every
input sequence; and whenever each record's depth exceeds its predecessor's
by at most one (`depthsOk`), every non-root node's depth equals its parent's
depth + 1 (`forestOk`). -/
theorem C2_tree_invariant_amended :
    (∀ rows : List Row, ∀ t ∈ build_nested_structure rows, rootDepth t = 0) ∧
    (∀ (b : Nat) (rows : List Row), depthsOk b rows = true →
      forestOk (build_nested_structure rows) = true) :=
  ⟨build_roots_zero, fun b rows h => build_forestOk b rows h⟩

/-- C2 (witness): the amended invariant evaluated on the concrete two-record
thread `[depth 0, depth 1]`. -/
theorem C2_tree_invariant_amended_witness :
    rootDepth (CTree.node (rowToComment (exRow "1" 0))
        [CTree.node (rowToComment (exRow "2" 40)) []]) = 0 ∧
    depthsOk 0 [exRow "1" 0, exRow "2" 40] = true ∧
    forestOk (build_nested_structure [exRow "1" 0, exRow "2" 40]) = true :=
  ⟨C2_tree_invariant_amended.1 [exRow "1" 0, exRow "2" 40]
      (CTree.node (rowToComment (exRow "1" 0)) [CTree.node (rowToComment (exRow "2" 40)) []])
      (List.mem_cons_self _ _),
   by decide,
   C2_tree_invariant_amended.2 0 [exRow "1" 0, exRow "2" 40] (by decide)⟩

/-- C3: for record sequences whose first depth is 0 and whose depths
increase by at most one at a time, every node reachable from a root sits at
structural tree depth equal to its record's stored depth; and the concrete
four-record scenario `[(1,0),(2,1),(3,1),(4,2)]` rebuilds exactly the forest
`[{1, replies:[{2,[]},{3,[{4,[]}]}]}]` of the claim. -/
theorem C3_depth_stack_correctness :
    (∀ rows : List Row, depthsOk 0 rows = true →
      depthMatchesF 0 (build_nested_structure rows) = true) ∧
    build_nested_structure [exRow "1" 0, exRow "2" 40, exRow "3" 40, exRow "4" 80] =
      [CTree.node (rowToComment (exRow "1" 0))
        [CTree.node (rowToComment (exRow "2" 40)) [],
         CTree.node (rowToComment (exRow "3" 40))
           [CTree.node (rowToComment (exRow "4" 80)) []]]] :=
  ⟨fun rows h => forestOk_depthMatchesF _ (build_forestOk 0 rows h), rfl⟩

/-- C3 (witness): the structural-depth property evaluated on the concrete
four-record scenario. -/
theorem C3_depth_stack_correctness_witness :
    depthsOk 0 [exRow "1" 0, exRow "2" 40, exRow "3" 40, exRow "4" 80] = true ∧
    depthMatchesF 0 (build_nested_structure
      [exRow "1" 0, exRow "2" 40, exRow "3" 40, exRow "4" 80]) = true :=
  ⟨by decide, C3_depth_stack_correctness.1 _ (by decide)⟩

/-- C4: a record of positive depth arriving when the truncated ancestor
stack is empty is silently dropped: the final forest equals the forest built
without that record, so it appears neither as a root nor in any reply list,
and no error is raised (the builder is a total function). -/
theorem C4_malformed_depth_drop (rows1 : List Row) (row : Row) (rows2 : List Row)
    (hd : rowIndentLevel row ≠ 0)
    (hempty : (truncAux (rows1.foldl buildStep ([], [])).1
        (rows1.foldl buildStep ([], [])).2 (rowIndentLevel row)).2 = []) :
    build_nested_structure (rows1 ++ row :: rows2) =
      build_nested_structure (rows1 ++ rows2) := by
  unfold build_nested_structure
  rw [List.foldl_append, List.foldl_append, List.foldl_cons,
    buildStep_drop (rows1.foldl buildStep ([], [])) row hd hempty]

/-- C4 (witness): a depth-1 record with no open ancestor is dropped and the
forest equals the one built from the remaining record alone. -/
theorem C4_malformed_depth_drop_witness :
    rowIndentLevel (exRow "1" 40) ≠ 0 ∧
    (truncAux (([] : List Row).foldl buildStep ([], [])).1
      (([] : List Row).foldl buildStep ([], [])).2 (rowIndentLevel (exRow "1" 40))).2 = [] ∧
    build_nested_structure [exRow "1" 40, exRow "2" 0] =
      build_nested_structure [exRow "2" 0] :=
  ⟨by decide, rfl,
   C4_malformed_depth_drop [] (exRow "1" 40) [exRow "2" 0] (by decide) rfl⟩

/-- C5: the preorder flattening of the built forest is a sublist — an
order-preserving selection — of the extracted record sequence in document
order.  In particular any two nodes that end up as siblings appear in their
parent's `replies` (or in the top-level forest) in their input order, and no
re-sorting by time, score or any other key is applied. -/
theorem C5_order_preservation (rows : List Row) :
    (forestFlatten (build_nested_structure rows)).Sublist (rows.map rowToComment) :=
  build_flatten_sublist rows

/-- Every branch of the merge carries the fetched discussion unchanged. -/
theorem get_hn_content_merge_keeps (hn_data : HNData)
    (scrape : Except FirecrawlError FireResp) :
    (get_hn_content_merge hn_data scrape).hn_comments = hn_data := by
  unfold get_hn_content_merge
  by_cases h1 : hn_data.story.url.getD "" = ""
  · simp [h1]
  · by_cases h2 : pyStartsWith (hn_data.story.url.getD "") "https://news.ycombinator.com" = true
    · simp [h1, h2]
    · rcases hmd : (do let resp ← scrape; get_markdown resp : Except FirecrawlError String)
        with e | md
      · simp [h1, h2, hmd]
      · simp [h1, h2, hmd]

/-- A successful `get_hn_content` call carries the fetched discussion
unchanged. -/
theorem get_hn_content_keeps (hn_url : String) (hn_data : HNData)
    (s : Except FirecrawlError FireResp) (r : CliResult)
    (h : get_hn_content hn_url (.ok hn_data) s = .ok r) :
    r.hn_comments = hn_data := by
  unfold get_hn_content at h
  by_cases hdig : pyIsDigit (extract_item_id_cli hn_url) = false
  · rw [if_pos hdig] at h
    exact absurd h (by simp)
  · rw [if_neg hdig] at h
    have h2 : Except.ok (ε := CliExn) (get_hn_content_merge hn_data s) = Except.ok r := h
    have h3 : get_hn_content_merge hn_data s = r := by
      injection h2
    rw [← h3, get_hn_content_merge_keeps]

/-- C6: whatever the article-scrape outcome — empty URL, forum-internal
URL, collaborator error, missing content field, or success — a successful
`get_hn_content` call carries the parsed discussion unchanged in
`hn_comments`: it equals the fetched data, coincides with what any other
scrape outcome (including a successful one) would have carried, and is
non-empty whenever the source thread had comments. -/
theorem C6_degraded_merge_invariant (hn_url : String) (hn_data : HNData)
    (s1 s2 : Except FirecrawlError FireResp) (r1 r2 : CliResult)
    (h1 : get_hn_content hn_url (.ok hn_data) s1 = .ok r1)
    (h2 : get_hn_content hn_url (.ok hn_data) s2 = .ok r2) :
    r1.hn_comments = hn_data ∧ r1.hn_comments = r2.hn_comments ∧
      (hn_data.comments ≠ [] → r1.hn_comments.comments ≠ []) := by
  have k1 := get_hn_content_keeps hn_url hn_data s1 r1 h1
  have k2 := get_hn_content_keeps hn_url hn_data s2 r2 h2
  refine ⟨k1, k1.trans k2.symm, fun hne => ?_⟩
  rw [k1]
  exact hne

/-- C6 (witness): a thread with one comment and a scrape that fails on the
missing markdown field still yields the untouched discussion. -/
theorem C6_degraded_merge_invariant_witness :
    get_hn_content "123" (.ok ⟨exStory, [CTree.node (rowToComment (exRow "1" 0)) []], 1⟩)
        (.ok ⟨some ⟨none, ["html"]⟩⟩) =
      .ok (get_hn_content_merge ⟨exStory, [CTree.node (rowToComment (exRow "1" 0)) []], 1⟩
        (.ok ⟨some ⟨none, ["html"]⟩⟩)) ∧
    get_hn_content "123" (.ok ⟨exStory, [CTree.node (rowToComment (exRow "1" 0)) []], 1⟩)
        (.error (.connectionError "timeout")) =
      .ok (get_hn_content_merge ⟨exStory, [CTree.node (rowToComment (exRow "1" 0)) []], 1⟩
        (.error (.connectionError "timeout"))) ∧
    (get_hn_content_merge ⟨exStory, [CTree.node (rowToComment (exRow "1" 0)) []], 1⟩
        (.ok ⟨some ⟨none, ["html"]⟩⟩)).hn_comments =
      ⟨exStory, [CTree.node (rowToComment (exRow "1" 0)) []], 1⟩ ∧
    (get_hn_content_merge ⟨exStory, [CTree.node (rowToComment (exRow "1" 0)) []], 1⟩
        (.ok ⟨some ⟨none, ["html"]⟩⟩)).hn_comments.comments ≠ [] := by
  have h := C6_degraded_merge_invariant "123"
    ⟨exStory, [CTree.node (rowToComment (exRow "1" 0)) []], 1⟩
    (.ok ⟨some ⟨none, ["html"]⟩⟩) (.error (.connectionError "timeout"))
    (get_hn_content_merge ⟨exStory, [CTree.node (rowToComment (exRow "1" 0)) []], 1⟩
      (.ok ⟨some ⟨none, ["html"]⟩⟩))
    (get_hn_content_merge ⟨exStory, [CTree.node (rowToComment (exRow "1" 0)) []], 1⟩
      (.error (.connectionError "timeout"))) rfl rfl
  refine ⟨rfl, rfl, h.1, ?_⟩
  rw [h.1]
  simp

/-- C7: when the article collaborator succeeds but the decoded response's
`data` dictionary lacks the `markdown` field, `get_markdown` raises the
response error naming the missing field (the spec's
`Failed("missing content field")`), and a CLI run over an external story URL
produces a result that still carries the full discussion, prints it, and
exits with code 2. -/
theorem C7_missing_content_field (resp : FireResp) (d : FireData)
    (hdata : resp.data = some d) (hmd : d.markdown = none)
    (hn_url : String) (hn_data : HNData) (u : String)
    (hdig : pyIsDigit (extract_item_id_cli hn_url) = true)
    (hurl : hn_data.story.url = some u) (hne : u ≠ "")
    (hext : pyStartsWith u "https://news.ycombinator.com" = false) :
    get_markdown resp = .error (.responseError
      ("'markdown' field not found in data. Available fields: " ++ toString d.otherKeys)) ∧
    ∃ res : CliResult,
      cli_main hn_url (.ok hn_data) (.ok resp) = (2, some res) ∧
        res.hn_comments = hn_data := by
  have hgm : get_markdown resp = .error (.responseError
      ("'markdown' field not found in data. Available fields: " ++ toString d.otherKeys)) := by
    simp [get_markdown, hdata, hmd]
  refine ⟨hgm, ?_⟩
  have hmerge : get_hn_content_merge hn_data (.ok resp) =
      ⟨hn_data, none, some u, some ("Failed to fetch URL content: " ++
        ("'markdown' field not found in data. Available fields: " ++ toString d.otherKeys))⟩ := by
    unfold get_hn_content_merge
    have hb : (do let r ← (Except.ok resp : Except FirecrawlError FireResp)
                  get_markdown r) =
        Except.error (FirecrawlError.responseError
          ("'markdown' field not found in data. Available fields: " ++ toString d.otherKeys)) := by
      rw [← hgm]
      rfl
    simp [hurl, hne, hext, hb, FirecrawlError.message]
  refine ⟨⟨hn_data, none, some u, some ("Failed to fetch URL content: " ++
        ("'markdown' field not found in data. Available fields: " ++ toString d.otherKeys))⟩, ?_, rfl⟩
  unfold cli_main get_hn_content
  simp [hdig, hmerge]

/-- C7 (witness): the missing-markdown scenario evaluated at a concrete
response, story and item id. -/
theorem C7_missing_content_field_witness :
    (⟨some ⟨none, ["html"]⟩⟩ : FireResp).data = some ⟨none, ["html"]⟩ ∧
    (⟨none, ["html"]⟩ : FireData).markdown = none ∧
    pyIsDigit (extract_item_id_cli "123") = true ∧
    (⟨exStory, [], 0⟩ : HNData).story.url = some "https://example.com/a" ∧
    "https://example.com/a" ≠ "" ∧
    pyStartsWith "https://example.com/a" "https://news.ycombinator.com" = false ∧
    (get_markdown ⟨some ⟨none, ["html"]⟩⟩ = .error (.responseError
        ("'markdown' field not found in data. Available fields: " ++
          toString (["html"] : List String))) ∧
      ∃ res : CliResult,
        cli_main "123" (.ok ⟨exStory, [], 0⟩) (.ok ⟨some ⟨none, ["html"]⟩⟩) = (2, some res) ∧
          res.hn_comments = ⟨exStory, [], 0⟩) :=
  ⟨rfl, rfl, by decide, rfl, by decide, by decide,
   C7_missing_content_field ⟨some ⟨none, ["html"]⟩⟩ ⟨none, ["html"]⟩ rfl rfl
     "123" ⟨exStory, [], 0⟩ "https://example.com/a" (by decide) rfl (by decide) (by decide)⟩

/-- C8 (counterexample): rendering a single top-level comment that has one
reply already contains a blank line — it sits directly after the top-level
comment's body and before its reply's header, inside one top-level comment's
block, not between two top-level comments. -/
theorem C8_compact_blank_line_counterexample :
    pySplitOn (format_comment_llm exTree 0) "\n" =
      ["COMMENT [alice @ t1] ID: 1", "hello", "",
       "  REPLY [bob @ t2] ID: 2", "  hi"] := rfl

/-- C8 (amended): the compact rendering of a comment at recursion depth `i`
is exactly the newline-join of `compactLines`, which gives every comment one
header line (`REPLY` when its depth is positive, `COMMENT` at depth 0,
followed by author, timestamp and id), its body lines under the compact
prefix, and a single blank line directly after a top-level comment's body
(before its replies) exactly when it has replies. -/
theorem C8_compact_rendering_amended (t : CTree) (i : Nat) :
    format_comment_llm t i = pyJoin "\n" (compactLines t i) :=
  format_eq_compact t i

/-- C9 (counterexample): a record with a missing comment-text container does
not always appear in the output forest — a missing-container row at depth 1
with no open ancestor is silently dropped like any other orphan record, so
the forest built from it alone is empty and its record appears nowhere. -/
theorem C9_still_appears_counterexample :
    (⟨"9", some 40, none, none, none⟩ : Row).commtext = none ∧
    build_nested_structure [⟨"9", some 40, none, none, none⟩] = [] ∧
    rowToComment ⟨"9", some 40, none, none, none⟩ ∉
      forestFlatten (build_nested_structure [(⟨"9", some 40, none, none, none⟩ : Row)]) :=
  ⟨rfl, rfl, by decide⟩

/-- C9 (amended): a row with a missing author element yields the sentinel
author `"[deleted]"`; a row with a missing comment-text container yields the
sentinel body `"[deleted]"` while its depth is still computed from the
indentation marker; and such a record still appears in the output forest
whenever the builder attaches it — its depth is 0, or the truncated
ancestor stack at its depth is non-empty (a positive-depth record meeting an
empty stack is silently dropped, missing container or not; see C4). -/
theorem C9_deleted_sentinels :
    (∀ row : Row, row.hnuser = none → (rowToComment row).author = "[deleted]") ∧
    (∀ row : Row, row.commtext = none →
      (rowToComment row).text = "[deleted]" ∧
      (rowToComment row).indent_level = rowIndentLevel row) ∧
    (∀ (rows1 : List Row) (row : Row) (rows2 : List Row), row.commtext = none →
      (rowIndentLevel row = 0 ∨
        (truncAux (rows1.foldl buildStep ([], [])).1
          (rows1.foldl buildStep ([], [])).2 (rowIndentLevel row)).2 ≠ []) →
      rowToComment row ∈ forestFlatten (build_nested_structure (rows1 ++ row :: rows2))) := by
  refine ⟨?_, ?_, ?_⟩
  · intro row h
    simp [rowToComment, h]
  · intro row h
    exact ⟨by simp [rowToComment, h], rfl⟩
  · intro rows1 row rows2 hct hatt
    rw [build_flatten_eq_stateFlat, List.foldl_append, List.foldl_cons]
    obtain ⟨l, hsub, hl⟩ := stateFlat_foldl rows2 (buildStep (rows1.foldl buildStep ([], [])) row)
    rw [hl, stateFlat_buildStep_kept _ row hatt]
    simp

/-- C9 (witness): a depth-0 row missing both the author element and the
text container gets both sentinels and still appears in the forest; and a
depth-1 missing-container row under an open root is attached as well. -/
theorem C9_deleted_sentinels_witness :
    (⟨"9", some 0, none, none, none⟩ : Row).hnuser = none ∧
    (rowToComment ⟨"9", some 0, none, none, none⟩).author = "[deleted]" ∧
    (⟨"9", some 0, none, none, none⟩ : Row).commtext = none ∧
    ((rowToComment ⟨"9", some 0, none, none, none⟩).text = "[deleted]" ∧
      (rowToComment ⟨"9", some 0, none, none, none⟩).indent_level =
        rowIndentLevel ⟨"9", some 0, none, none, none⟩) ∧
    rowIndentLevel (⟨"9", some 0, none, none, none⟩ : Row) = 0 ∧
    rowToComment ⟨"9", some 0, none, none, none⟩ ∈
      forestFlatten (build_nested_structure
        ([] ++ (⟨"9", some 0, none, none, none⟩ : Row) :: [])) ∧
    (⟨"9", some 40, none, none, none⟩ : Row).commtext = none ∧
    (truncAux ([exRow "1" 0].foldl buildStep ([], [])).1
      ([exRow "1" 0].foldl buildStep ([], [])).2
      (rowIndentLevel (⟨"9", some 40, none, none, none⟩ : Row))).2 ≠ [] ∧
    rowToComment ⟨"9", some 40, none, none, none⟩ ∈
      forestFlatten (build_nested_structure
        ([exRow "1" 0] ++ (⟨"9", some 40, none, none, none⟩ : Row) :: [])) :=
  ⟨rfl, C9_deleted_sentinels.1 _ rfl, rfl, C9_deleted_sentinels.2.1 _ rfl, rfl,
   C9_deleted_sentinels.2.2 [] _ [] rfl (Or.inl rfl),
   rfl, List.cons_ne_nil _ _,
   C9_deleted_sentinels.2.2 [exRow "1" 0] _ [] rfl (Or.inr (List.cons_ne_nil _ _))⟩

/-- C10: once the tool name is `get_hn_content` and an `hn_url` argument is
present, `handle_call_tool` never raises, whatever the url string and the
behavior of the two collaborators: it returns a one-element list of text
content, and a thread fetch or parse failure is encoded in-band as a body
reading `Error: ...` (article problems are already in-band bracketed notices
inside the assembled text). -/
theorem C10_tool_boundary_total (arguments : Option (List (String × String)))
    (args : List (String × String)) (hn_url : String)
    (fetch : String → Except String HNData) (scrape : ScrapeBehavior)
    (hargs : arguments = some args) (hlook : args.lookup "hn_url" = some hn_url) :
    ∃ t : TextContent,
      handle_call_tool "get_hn_content" arguments fetch scrape = .ok [t] ∧
        ∀ e, fetch (extract_item_id hn_url) = .error e → t.text = "Error: " ++ e := by
  subst hargs
  unfold handle_call_tool
  rw [if_neg (by simp)]
  simp only [hlook]
  rcases hf : fetch (extract_item_id hn_url) with e | hn_result
  · exact ⟨⟨"Error: " ++ e⟩, rfl, fun e' he' => by
      injection he' with h
      rw [h]⟩
  · exact ⟨_, rfl, fun e' he' => absurd he' (by simp)⟩

/-- C10 (witness): at a concrete failing fetch the boundary returns the
single in-band `Error: ...` text. -/
theorem C10_tool_boundary_total_witness :
    (some [("hn_url", "abc")] : Option (List (String × String))) = some [("hn_url", "abc")] ∧
    ([("hn_url", "abc")] : List (String × String)).lookup "hn_url" = some "abc" ∧
    ∃ t : TextContent,
      handle_call_tool "get_hn_content" (some [("hn_url", "abc")])
          (fun _ => .error "boom") (.otherError "x") = .ok [t] ∧
        ∀ e, (fun _ => Except.error (ε := String) (α := HNData) "boom") (extract_item_id "abc") =
            .error e → t.text = "Error: " ++ e :=
  ⟨rfl, rfl,
   C10_tool_boundary_total (some [("hn_url", "abc")]) [("hn_url", "abc")] "abc"
     (fun _ => .error "boom") (.otherError "x") rfl rfl⟩

end HN
